import Mathlib

/-!
# Verification of the in-memory queue manager (`src/server/queue.ts`)

This file gives a shallow embedding of the `QueueManager` class and proves
properties of it.

The embedding has two layers, matching the structure of the source:

* A **state machine** over the Wait List (`queue : QueueJob[]`), the Active
  Set (`processing : Map`) and the job counter.  `enqueue`, the dispatch
  loop `processNext` and job settlement are modelled as state transitions.
  Since the JavaScript host is single threaded and the dispatch loop body
  contains no suspension point, each trigger of `processNext` runs
  atomically to completion; job settlement (the tail of `executeJob`) is a
  separate atomic transition that removes the job from the Active Set and
  re-runs the dispatch loop.

* A **trace semantics** for the execution wrapper `executeJob` /
  `withTimeout`.  The processor supplied for a job is abstracted as, per
  attempt, a promise that either settles at some time with a result or an
  error, or never settles.  `executeJob` then produces the list of
  observable actions (processor calls, back-off sleeps, event emissions,
  completion-channel settlements) together with the final job record
  fields, exactly following the retry loop of the source.

Machine strings are Lean `String`s; `String.prototype.includes` of
JavaScript is embedded as an explicit (case-sensitive) substring search on
character lists.  `Date` values are abstracted to the Boolean fact that the
corresponding field was assigned.
-/

/-- Job status, from `type QueueJobStatus = "queued" | "processing" |
"completed" | "failed"`. -/
inductive QueueJobStatus where
  | queued
  | processing
  | completed
  | failed
deriving DecidableEq, Repr

/-- A job record as it lives in the Wait List / Active Set.  `id` is the
value of the job counter used to build the id string
`job-${Date.now()}-${counter}` (the counter part makes ids unique, the
timestamp part is not modelled).  `startedAt` records whether the
`startedAt` field has been assigned. -/
structure QJob where
  id : Nat
  status : QueueJobStatus
  position : Nat
  startedAt : Bool
deriving DecidableEq, Repr

/-- The queue configuration (`interface QueueConfig`). -/
structure QueueConfig where
  maxConcurrent : Nat
  maxQueueSize : Nat
  jobTimeout : Nat
  retryAttempts : Nat
  retryDelay : Nat
deriving DecidableEq, Repr

/-- The constant `DEFAULT_CONFIG` from the source. -/
def DEFAULT_CONFIG : QueueConfig :=
  { maxConcurrent := 2
    maxQueueSize := 100
    jobTimeout := 300000
    retryAttempts := 3
    retryDelay := 2000 }

/-- The configuration of the global image-processing queue built in
`getImageProcessingQueue`. -/
def imageQueueConfig : QueueConfig :=
  { maxConcurrent := 2
    maxQueueSize := 50
    jobTimeout := 300000
    retryAttempts := 3
    retryDelay := 3000 }

/-- Mutable state of a `QueueManager` instance: the Wait List, the Active
Set and the job counter. -/
structure QState where
  queue : List QJob
  processing : List QJob
  jobCounter : Nat
deriving DecidableEq, Repr

/-- The state of a freshly constructed `QueueManager`. -/
def initState : QState := ⟨[], [], 0⟩

/-- Events emitted through the `EventEmitter` by the state-machine layer
(`jobAdded` from `enqueue`, `jobStarted` from `processNext`). -/
inductive QEvent where
  | jobAdded (jobId : Nat) (position : Nat) (queueLength : Nat)
  | jobStarted (jobId : Nat) (processingCount : Nat)
deriving DecidableEq, Repr

/-- The body of `updatePositions`: `this.queue.forEach((job, index) =>
job.position = index + 1)`, generalised to an arbitrary first index. -/
def updatePositionsFrom (i : Nat) : List QJob → List QJob
  | [] => []
  | j :: rest => { j with position := i } :: updatePositionsFrom (i + 1) rest

/-- The method `QueueManager.updatePositions`. -/
def updatePositions (l : List QJob) : List QJob := updatePositionsFrom 1 l

/-- Decidable check that the positions of a list of queued jobs are
`i, i+1, i+2, ...` in order. -/
def positionsFromB (i : Nat) : List QJob → Bool
  | [] => true
  | j :: rest => (j.position == i) && positionsFromB (i + 1) rest

/-- The body of the dispatch loop `processNext`, with explicit fuel (the
loop removes one queued job per iteration, so `queue.length` fuel is always
enough).  Each iteration: shift the head job, renumber the remaining queued
jobs, mark the job `processing` with `startedAt` set, add it to the Active
Set, emit `jobStarted`, and continue; the loop stops when the Wait List is
empty or the Active Set has reached `maxConcurrent`. -/
def dispatchGo (cfg : QueueConfig) : Nat → List QJob → List QJob →
    List QJob × List QJob × List QEvent
  | 0, q, p => (q, p, [])
  | fuel + 1, q, p =>
    match q with
    | [] => ([], p, [])
    | j :: rest =>
      if p.length < cfg.maxConcurrent then
        let rest' := updatePositions rest
        let j' := { j with status := QueueJobStatus.processing, startedAt := true }
        let p' := p ++ [j']
        let r := dispatchGo cfg fuel rest' p'
        (r.1, r.2.1, QEvent.jobStarted j.id p'.length :: r.2.2)
      else (j :: rest, p, [])

/-- The method `QueueManager.processNext`: one full dispatch pass over the state. -/
def processNext (cfg : QueueConfig) (s : QState) : QState × List QEvent :=
  let r := dispatchGo cfg s.queue.length s.queue s.processing
  ({ s with queue := r.1, processing := r.2.1 }, r.2.2)

/-- The capacity error message thrown by `enqueue` when the Wait List is
full. -/
def capacityError : String := "キューが満杯です。しばらく待ってから再度お試しください。"

/-- The job record created by `enqueue`: status `queued`, position
`this.queue.length + 1`, id built from the incremented counter. -/
def newJob (s : QState) : QJob :=
  { id := s.jobCounter + 1
    status := QueueJobStatus.queued
    position := s.queue.length + 1
    startedAt := false }

/-- The method `QueueManager.enqueue`: if the Wait List already holds `maxQueueSize`
jobs, throw the capacity error (before the counter is incremented or any
record is created, so the state is returned untouched); otherwise create
the job record, push it, emit `jobAdded`, and run a dispatch pass.  The
second component is the thrown error or the id of the admitted job. -/
def enqueue (cfg : QueueConfig) (s : QState) :
    QState × Except String Nat × List QEvent :=
  if s.queue.length ≥ cfg.maxQueueSize then
    (s, Except.error capacityError, [])
  else
    let job := newJob s
    let s1 : QState :=
      { queue := s.queue ++ [job]
        processing := s.processing
        jobCounter := s.jobCounter + 1 }
    let r := processNext cfg s1
    (r.1, Except.ok job.id, QEvent.jobAdded job.id job.position s1.queue.length :: r.2)

/-- The state-machine effect of a job settling (the tail of `executeJob`,
success or failure): `this.processing.delete(job.id)` followed by
`this.processNext()`. -/
def afterSettle (cfg : QueueConfig) (s : QState) (jid : Nat) : QState × List QEvent :=
  processNext cfg
    { s with processing := s.processing.filter (fun j => j.id != jid) }

/-- One atomic transition of a `QueueManager` instance: a successful
`enqueue`, an `enqueue` rejected for capacity (which leaves the state
untouched), or the settlement of some job. -/
inductive QStep (cfg : QueueConfig) : QState → QState → Prop where
  | enqueueOk (s : QState) :
      s.queue.length < cfg.maxQueueSize → QStep cfg s (enqueue cfg s).1
  | enqueueFull (s : QState) :
      cfg.maxQueueSize ≤ s.queue.length → QStep cfg s s
  | settle (s : QState) (jid : Nat) : QStep cfg s (afterSettle cfg s jid).1

/-- A state is reachable if some sequence of transitions leads to it from
the state of a freshly constructed instance. -/
def Reachable (cfg : QueueConfig) (s : QState) : Prop :=
  Relation.ReflTransGen (QStep cfg) initState s

/-! ## The execution wrapper -/

/-- Here `listStarts hay needle` holds when `needle` is an initial segment of
`hay`. -/
def listStarts : List Char → List Char → Bool
  | _, [] => true
  | [], _ :: _ => false
  | a :: as, b :: bs => a == b && listStarts as bs

/-- Case-sensitive substring search, the embedding of JavaScript's
`String.prototype.includes`. -/
def listHasSub : List Char → List Char → Bool
  | [], needle => needle.isEmpty
  | hay@(_ :: rest), needle => listStarts hay needle || listHasSub rest needle

/-- The JavaScript call `s.includes(sub)` on Lean strings. -/
def strIncludes (s sub : String) : Bool := listHasSub s.toList sub.toList

/-- The rate-limit classification of an error message:
`lastError.message.includes("429") || lastError.message.includes("rate") ||
lastError.message.includes("limit")`. -/
def isRateLimited (msg : String) : Bool :=
  strIncludes msg "429" || strIncludes msg "rate" || strIncludes msg "limit"

/-- The back-off delay computed after a failed attempt:
`retryDelay * attempt * 2` when the message classifies as rate limited,
`retryDelay * attempt` otherwise. -/
def backoffDelay (cfg : QueueConfig) (msg : String) (attempt : Nat) : Nat :=
  if isRateLimited msg then cfg.retryDelay * attempt * 2
  else cfg.retryDelay * attempt

/-- Abstraction of one attempt's processor promise: it either settles at
time `t` (milliseconds after the attempt starts) with a result or a thrown
error message, or it never settles. -/
inductive PromiseB (R : Type) where
  | settles (t : Nat) (o : Except String R)
  | never

/-- The message of the error created when the timeout timer fires. -/
def timeoutMsg : String := "処理がタイムアウトしました"

/-- The method `QueueManager.withTimeout`: race the promise against a timer that
rejects after `ms` milliseconds.  The promise wins exactly when it settles
strictly before the timer fires; otherwise the attempt's outcome is the
timeout error, whatever the underlying promise eventually does. -/
def withTimeout {R : Type} (p : PromiseB R) (ms : Nat) : Except String R :=
  match p with
  | PromiseB.settles t o => if t < ms then o else Except.error timeoutMsg
  | PromiseB.never => Except.error timeoutMsg

/-- Observable actions of the execution wrapper, in program order:
processor invocations, back-off sleeps, the two terminal event emissions,
the two completion-channel settlements, removal from the Active Set and the
re-trigger of the dispatch loop. -/
inductive JobAction (R : Type) where
  | callProcessor (attempt : Nat)
  | sleepFor (ms : Nat)
  | emitCompleted
  | emitFailed (error : String)
  | resolveJob (r : R)
  | rejectJob (msg : String)
  | removeActive
  | trigger
deriving DecidableEq, Repr

/-- The terminal fields of the job record as left by `executeJob`. -/
structure ExecState (R : Type) where
  status : QueueJobStatus
  result : Option R
  error : Option String
  completedAt : Bool
deriving DecidableEq, Repr

/-- The error string recorded on terminal failure:
`lastError?.message || "不明なエラー"` — note that JavaScript `||` also
replaces an *empty* captured message by the generic one. -/
def genericErrorField : String := "不明なエラー"

/-- The message of the error used to reject the completion channel when no
error was ever captured: `lastError || new Error("処理に失敗しました")`. -/
def genericRejectMsg : String := "処理に失敗しました"

/-- The expression `lastError?.message || d`. -/
def msgOr (o : Option String) (d : String) : String :=
  match o with
  | some m => if m = "" then d else m
  | none => d

/-- The message the completion channel is rejected with:
the last error if one was captured, else the generic failure error. -/
def rejectMsgOf (o : Option String) : String :=
  match o with
  | some m => m
  | none => genericRejectMsg

/-- The retry loop of `executeJob`, with `remaining` attempts left
(including the current one) and `attempt` the 1-based number of the current
attempt; `executeJob` enters with `remaining = retryAttempts` and
`attempt = 1`, so `remaining + attempt = retryAttempts + 1` throughout.
Per attempt the processor promise is raced against the timeout.  On
success: record `completed`/`completedAt`/`result`, leave the Active Set,
emit `jobCompleted`, resolve the channel, re-trigger dispatch.  On error:
remember the error and, if this was not the final attempt, sleep the
back-off delay before retrying.  When no attempts remain: record
`failed`/`completedAt`/`error`, leave the Active Set, emit `jobFailed`,
reject the channel, re-trigger dispatch. -/
def execGo {R : Type} (cfg : QueueConfig) (prom : Nat → PromiseB R) :
    Nat → Nat → Option String → List (JobAction R) × ExecState R
  | 0, _, lastErr =>
      ([JobAction.removeActive,
        JobAction.emitFailed (msgOr lastErr genericErrorField),
        JobAction.rejectJob (rejectMsgOf lastErr),
        JobAction.trigger],
       ⟨QueueJobStatus.failed, none, some (msgOr lastErr genericErrorField), true⟩)
  | remaining + 1, attempt, _ =>
      match withTimeout (prom attempt) cfg.jobTimeout with
      | Except.ok r =>
          ([JobAction.callProcessor attempt,
            JobAction.removeActive,
            JobAction.emitCompleted,
            JobAction.resolveJob r,
            JobAction.trigger],
           ⟨QueueJobStatus.completed, some r, none, true⟩)
      | Except.error m =>
          let rest := execGo cfg prom remaining (attempt + 1) (some m)
          (JobAction.callProcessor attempt ::
            ((if attempt < cfg.retryAttempts then
                [JobAction.sleepFor (backoffDelay cfg m attempt)]
              else []) ++ rest.1),
           rest.2)

/-- The method `QueueManager.executeJob` for one job whose per-attempt processor
behaviour is `prom`: the trace of observable actions and the terminal job
record fields. -/
def executeJob {R : Type} (cfg : QueueConfig) (prom : Nat → PromiseB R) :
    List (JobAction R) × ExecState R :=
  execGo cfg prom cfg.retryAttempts 1 none

/-- Is this action a settlement of the completion channel by `resolve`? -/
def isResolve {R : Type} : JobAction R → Bool
  | JobAction.resolveJob _ => true
  | _ => false

/-- Is this action a settlement of the completion channel by `reject`? -/
def isReject {R : Type} : JobAction R → Bool
  | JobAction.rejectJob _ => true
  | _ => false

/-- Is this action a processor invocation? -/
def isCall {R : Type} : JobAction R → Bool
  | JobAction.callProcessor _ => true
  | _ => false

/-- Is this action a back-off sleep? -/
def isSleep {R : Type} : JobAction R → Bool
  | JobAction.sleepFor _ => true
  | _ => false

/-- Is this action the emission of a `jobCompleted` event? -/
def isCompletedEv {R : Type} : JobAction R → Bool
  | JobAction.emitCompleted => true
  | _ => false

/-- Is this action the emission of a `jobFailed` event? -/
def isFailedEv {R : Type} : JobAction R → Bool
  | JobAction.emitFailed _ => true
  | _ => false

/-- The attempt numbers of the processor invocations in a trace, in
order. -/
def callsOf {R : Type} (l : List (JobAction R)) : List Nat :=
  l.filterMap (fun a =>
    match a with
    | JobAction.callProcessor k => some k
    | _ => none)

/-! ## Lemmas about positions and the dispatch loop -/

/-- Renumbering preserves the length of the Wait List. -/
theorem length_updatePositionsFrom (i : Nat) (l : List QJob) :
    (updatePositionsFrom i l).length = l.length := by
  induction l generalizing i with
  | nil => rfl
  | cons j rest ih => simp [updatePositionsFrom, ih]

/-- Renumbering from `i` produces positions `i, i+1, ...`. -/
theorem positionsFromB_updatePositionsFrom (i : Nat) (l : List QJob) :
    positionsFromB i (updatePositionsFrom i l) = true := by
  induction l generalizing i with
  | nil => rfl
  | cons j rest ih => simp [updatePositionsFrom, positionsFromB, ih]

/-- A list whose positions are already `i, i+1, ...` is unchanged by
renumbering from `i`. -/
theorem updatePositionsFrom_of_ok {i : Nat} {l : List QJob}
    (h : positionsFromB i l = true) : updatePositionsFrom i l = l := by
  induction l generalizing i with
  | nil => rfl
  | cons j rest ih =>
    obtain ⟨jid, jst, jpos, jsa⟩ := j
    simp only [positionsFromB, Bool.and_eq_true, beq_iff_eq] at h
    simp only [updatePositionsFrom, ih h.2]
    simp_all

/-- Renumbering twice is the same as renumbering once. -/
theorem updatePositionsFrom_updatePositionsFrom (i k : Nat) (l : List QJob) :
    updatePositionsFrom i (updatePositionsFrom k l) = updatePositionsFrom i l := by
  induction l generalizing i k with
  | nil => rfl
  | cons j rest ih => simp [updatePositionsFrom, ih]

/-- Dropping from a renumbered list is renumbering (shifted) the dropped
list. -/
theorem drop_updatePositionsFrom (m i : Nat) (l : List QJob) :
    List.drop m (updatePositionsFrom i l) = updatePositionsFrom (i + m) (List.drop m l) := by
  induction m generalizing i l with
  | zero => simp
  | succ m ih =>
    cases l with
    | nil => simp [updatePositionsFrom]
    | cons j rest =>
      simp only [updatePositionsFrom, List.drop_succ_cons, ih (i + 1) rest]
      have : i + 1 + m = i + (m + 1) := by omega
      rw [this]

/-- Taking from a renumbered list is renumbering the taken list. -/
theorem take_updatePositionsFrom (m i : Nat) (l : List QJob) :
    List.take m (updatePositionsFrom i l) = updatePositionsFrom i (List.take m l) := by
  induction m generalizing i l with
  | zero => simp [updatePositionsFrom]
  | succ m ih =>
    cases l with
    | nil => simp [updatePositionsFrom]
    | cons j rest => simp [updatePositionsFrom, ih]

/-- Appending a job whose position is one past the end keeps positions
contiguous. -/
theorem positionsFromB_append (i : Nat) (l : List QJob) (j : QJob) :
    positionsFromB i (l ++ [j]) = (positionsFromB i l && (j.position == i + l.length)) := by
  induction l generalizing i with
  | nil => simp [positionsFromB]
  | cons a rest ih =>
    have h1 : i + 1 + rest.length = i + (rest.length + 1) := by omega
    simp [positionsFromB, ih (i + 1), h1, Bool.and_assoc]

/-- How a job record is transformed when the dispatch loop claims it: the
status becomes `processing` and `startedAt` is stamped; a claimed job is
renumbered to position 1 just before being claimed (the head of the Wait
List has position 1 whenever positions are contiguous). -/
def startJob (j : QJob) : QJob :=
  { j with status := QueueJobStatus.processing, startedAt := true, position := 1 }

/-- Since `startJob` ignores the old position, renumbering before claiming is
invisible. -/
theorem map_startJob_updatePositionsFrom (i : Nat) (l : List QJob) :
    (updatePositionsFrom i l).map startJob = l.map startJob := by
  induction l generalizing i with
  | nil => rfl
  | cons j rest ih => simp [updatePositionsFrom, startJob, ih]

/-- The `jobStarted` events emitted when the jobs of `l` are claimed one by
one while the Active Set already holds `base` jobs. -/
def startedEvents (base : Nat) : List QJob → List QEvent
  | [] => []
  | j :: rest => QEvent.jobStarted j.id (base + 1) :: startedEvents (base + 1) rest

/-- Since `startedEvents` only looks at ids, renumbering is invisible. -/
theorem startedEvents_updatePositionsFrom (b i : Nat) (l : List QJob) :
    startedEvents b (updatePositionsFrom i l) = startedEvents b l := by
  induction l generalizing b i with
  | nil => rfl
  | cons j rest ih => simp [updatePositionsFrom, startedEvents, ih]

/-- The number of jobs a dispatch pass claims: head jobs are claimed while
the Active Set is below the ceiling and the Wait List is non-empty. -/
def claimCount (cfg : QueueConfig) (q p : List QJob) : Nat :=
  min (cfg.maxConcurrent - p.length) q.length

/-- Closed form of the dispatch loop, provided the fuel covers the Wait
List and positions are contiguous: the first `claimCount` jobs are claimed
in FIFO order, marked `processing` with `startedAt` stamped, and appended
to the Active Set in order; the remaining Wait List is renumbered from 1;
one `jobStarted` event is emitted per claimed job, carrying the Active Set
size at its claim. -/
theorem dispatchGo_closed (cfg : QueueConfig) :
    ∀ (fuel : Nat) (q p : List QJob), q.length ≤ fuel →
      positionsFromB 1 q = true →
      dispatchGo cfg fuel q p =
        (updatePositions (q.drop (claimCount cfg q p)),
         p ++ (q.take (claimCount cfg q p)).map startJob,
         startedEvents p.length (q.take (claimCount cfg q p))) := by
  intro fuel
  induction fuel with
  | zero =>
    intro q p hlen _
    have hq : q = [] := List.length_eq_zero.mp (Nat.le_zero.mp hlen)
    subst hq
    simp [dispatchGo, claimCount, updatePositions, updatePositionsFrom, startedEvents]
  | succ fuel ih =>
    intro q p hlen hq
    cases q with
    | nil =>
      simp [dispatchGo, claimCount, updatePositions, updatePositionsFrom, startedEvents]
    | cons j rest =>
      simp only [positionsFromB, Bool.and_eq_true, beq_iff_eq] at hq
      by_cases hlt : p.length < cfg.maxConcurrent
      · have hk : claimCount cfg (j :: rest) p =
            claimCount cfg (updatePositions rest) (p ++ [startJob j]) + 1 := by
          simp only [claimCount, updatePositions, length_updatePositionsFrom,
            List.length_append, List.length_cons, List.length]
          omega
        have hrest : (updatePositions rest).length ≤ fuel := by
          simp only [updatePositions, length_updatePositionsFrom]
          simp only [List.length_cons] at hlen
          omega
        have hjstart : { j with status := QueueJobStatus.processing, startedAt := true } =
            startJob j := by
          simp [startJob, hq.1]
        rw [dispatchGo]
        simp only [hlt, if_true, hjstart,
          ih (updatePositions rest) (p ++ [startJob j]) hrest
            (positionsFromB_updatePositionsFrom 1 rest), hk]
        simp only [updatePositions, drop_updatePositionsFrom, take_updatePositionsFrom,
          updatePositionsFrom_updatePositionsFrom, map_startJob_updatePositionsFrom,
          startedEvents_updatePositionsFrom, List.drop_succ_cons, List.take_succ_cons,
          List.map_cons, List.length_append, List.length_cons, List.length_nil,
          startedEvents, List.append_assoc, List.singleton_append, Nat.zero_add]
      · have hk : claimCount cfg (j :: rest) p = 0 := by
          simp only [claimCount]
          omega
        rw [dispatchGo]
        simp only [hlt, if_false, hk, List.drop_zero, List.take_zero, List.map_nil,
          List.append_nil, startedEvents]
        have : updatePositions (j :: rest) = j :: rest := by
          apply updatePositionsFrom_of_ok
          simp [positionsFromB, hq.1, hq.2]
        rw [this]

/-! ## The state-machine invariant -/

/-- The invariant maintained by every transition: queued positions are
contiguous from 1, and the Active Set never exceeds the concurrency
ceiling. -/
def QInv (cfg : QueueConfig) (s : QState) : Prop :=
  positionsFromB 1 s.queue = true ∧ s.processing.length ≤ cfg.maxConcurrent

/-- A dispatch pass (with adequate fuel) keeps the invariant: the result
queue is freshly renumbered and the Active Set gains at most the remaining
capacity. -/
theorem processNext_inv (cfg : QueueConfig) (s : QState)
    (hq : positionsFromB 1 s.queue = true)
    (hp : s.processing.length ≤ cfg.maxConcurrent) :
    QInv cfg (processNext cfg s).1 := by
  have h := dispatchGo_closed cfg s.queue.length s.queue s.processing le_rfl hq
  constructor
  · simp only [processNext, h, updatePositions]
    exact positionsFromB_updatePositionsFrom 1 _
  · simp only [processNext, h, List.length_append, List.length_map, List.length_take,
      claimCount]
    omega

/-- The invariant holds initially. -/
theorem inv_init (cfg : QueueConfig) : QInv cfg initState := by
  constructor
  · rfl
  · exact Nat.zero_le _

/-- The invariant is preserved by every transition. -/
theorem inv_step (cfg : QueueConfig) {s s' : QState}
    (h : QInv cfg s) (hstep : QStep cfg s s') : QInv cfg s' := by
  cases hstep with
  | enqueueOk hlen =>
    have hfull : ¬ s.queue.length ≥ cfg.maxQueueSize := by omega
    simp only [enqueue, hfull, if_false]
    apply processNext_inv
    · simp only [positionsFromB_append, h.1, Bool.true_and, newJob, beq_iff_eq]
      omega
    · exact h.2
  | enqueueFull hlen => exact h
  | settle jid =>
    apply processNext_inv
    · exact h.1
    · exact le_trans (List.length_filter_le _ _) h.2

/-- Every reachable state satisfies the invariant. -/
theorem inv_reachable (cfg : QueueConfig) {s : QState}
    (h : Reachable cfg s) : QInv cfg s := by
  induction h with
  | refl => exact inv_init cfg
  | tail _ hstep ih => exact inv_step cfg ih hstep

/-! ## Claims about the state machine -/

/-- Claim C1: for every reachable state of a `QueueManager` instance
(after any sequence of enqueue calls and job completions/failures), the
size of the Active Set (the `processing` map) is at most the configured
concurrency ceiling `maxConcurrent`. -/
theorem C1_active_set_bounded (cfg : QueueConfig) (s : QState)
    (h : Reachable cfg s) : s.processing.length ≤ cfg.maxConcurrent :=
  (inv_reachable cfg h).2

/-- Witness for C1 at a concrete reachable state: the state after one
successful `enqueue` on a fresh default-configured instance. -/
theorem C1_active_set_bounded_witness :
    (enqueue DEFAULT_CONFIG initState).1.processing.length ≤
      DEFAULT_CONFIG.maxConcurrent :=
  C1_active_set_bounded DEFAULT_CONFIG _
    (Relation.ReflTransGen.single (QStep.enqueueOk initState (by decide)))

/-- Claim C3: calling `enqueue` when the Wait List length is at least
`maxQueueSize` fails immediately with the capacity error; the state —
Wait List, Active Set and job counter — is returned untouched and no event
is emitted (the throw happens before the counter increment and before any
job record is created). -/
theorem C3_capacity_rejection (cfg : QueueConfig) (s : QState)
    (h : s.queue.length ≥ cfg.maxQueueSize) :
    enqueue cfg s = (s, Except.error capacityError, []) := by
  unfold enqueue
  rw [if_pos h]

/-- A small configuration admitting a single waiting job. -/
def tinyConfig : QueueConfig :=
  { maxConcurrent := 2
    maxQueueSize := 1
    jobTimeout := 300000
    retryAttempts := 3
    retryDelay := 2000 }

/-- A `tinyConfig` state with both execution slots busy and a full Wait
List. -/
def fullState : QState :=
  { queue := [⟨3, QueueJobStatus.queued, 1, false⟩]
    processing := [⟨1, QueueJobStatus.processing, 1, true⟩,
                   ⟨2, QueueJobStatus.processing, 2, true⟩]
    jobCounter := 3 }

/-- Witness for C3: submitting to a full `tinyConfig` queue is rejected
with the capacity error and changes nothing. -/
theorem C3_capacity_rejection_witness :
    fullState.queue.length ≥ tinyConfig.maxQueueSize ∧
    enqueue tinyConfig fullState = (fullState, Except.error capacityError, []) :=
  ⟨by decide, C3_capacity_rejection tinyConfig fullState (by decide)⟩

/-- Claim C4: a dispatch pass follows the specified algorithm.  While the
Wait List is non-empty and the Active Set is below the ceiling it claims
head jobs — so the claimed jobs are exactly the first
`min (maxConcurrent - |Active Set|) |Wait List|` in strict FIFO order;
each claimed job is appended to the Active Set with `status = processing`
and `startedAt` stamped, and one `jobStarted` event is emitted for it; the
remaining queued jobs are renumbered from position 1.  The pass itself does
not run any job: execution effects are separate `settle` transitions. -/
theorem C4_dispatch_pass (cfg : QueueConfig) (s : QState)
    (hq : positionsFromB 1 s.queue = true) :
    processNext cfg s =
      ({ queue := updatePositions (s.queue.drop (claimCount cfg s.queue s.processing))
         processing := s.processing ++
           (s.queue.take (claimCount cfg s.queue s.processing)).map startJob
         jobCounter := s.jobCounter },
       startedEvents s.processing.length
         (s.queue.take (claimCount cfg s.queue s.processing))) := by
  have h := dispatchGo_closed cfg s.queue.length s.queue s.processing le_rfl hq
  simp [processNext, h]

/-- A state with three queued jobs and an idle Active Set. -/
def exState : QState :=
  { queue := [⟨1, QueueJobStatus.queued, 1, false⟩,
              ⟨2, QueueJobStatus.queued, 2, false⟩,
              ⟨3, QueueJobStatus.queued, 3, false⟩]
    processing := []
    jobCounter := 3 }

/-- Witness for C4: a dispatch pass on three waiting jobs with two free
slots claims the first two, in order. -/
theorem C4_dispatch_pass_witness :
    processNext DEFAULT_CONFIG exState =
      ({ queue := updatePositions
           (exState.queue.drop (claimCount DEFAULT_CONFIG exState.queue exState.processing))
         processing := exState.processing ++
           (exState.queue.take (claimCount DEFAULT_CONFIG exState.queue exState.processing)).map
             startJob
         jobCounter := exState.jobCounter },
       startedEvents exState.processing.length
         (exState.queue.take (claimCount DEFAULT_CONFIG exState.queue exState.processing))) :=
  C4_dispatch_pass DEFAULT_CONFIG exState (by decide)

/-- Claim C5: in every reachable state the positions of the queued jobs
form the contiguous sequence 1, 2, ..., n from head to tail; and a
successful `enqueue` creates its job at position `|Wait List| + 1`, as
carried by the emitted `jobAdded` event (whose queue-length field is the
same value, the length after the append). -/
theorem C5_positions_contiguous (cfg : QueueConfig) (s : QState)
    (h : Reachable cfg s) :
    positionsFromB 1 s.queue = true ∧
    (s.queue.length < cfg.maxQueueSize →
      ∃ evs, (enqueue cfg s).2.2 =
        QEvent.jobAdded (newJob s).id (s.queue.length + 1) (s.queue.length + 1) :: evs) := by
  refine ⟨(inv_reachable cfg h).1, ?_⟩
  intro hlen
  have hfull : ¬ s.queue.length ≥ cfg.maxQueueSize := by omega
  refine ⟨(processNext cfg
    { queue := s.queue ++ [newJob s]
      processing := s.processing
      jobCounter := s.jobCounter + 1 }).2, ?_⟩
  simp [enqueue, hfull, newJob]

/-- Witness for C5 at the initial state: the first admitted job is created
at position 1. -/
theorem C5_positions_contiguous_witness :
    initState.queue.length < DEFAULT_CONFIG.maxQueueSize ∧
    ∃ evs, (enqueue DEFAULT_CONFIG initState).2.2 =
      QEvent.jobAdded (newJob initState).id (initState.queue.length + 1)
        (initState.queue.length + 1) :: evs :=
  ⟨by decide,
   (C5_positions_contiguous DEFAULT_CONFIG initState Relation.ReflTransGen.refl).2
     (by decide)⟩

/-! ## Lemmas about the execution wrapper -/

/-- Actions that are only bookkeeping (processor calls and sleeps) are
neither events nor settlements. -/
theorem callOrSleep_not_terminal {R : Type} {x : JobAction R}
    (h : isCall x = true ∨ isSleep x = true) :
    isFailedEv x = false ∧ isCompletedEv x = false ∧
    isResolve x = false ∧ isReject x = false ∧ isSleep x = isSleep x := by
  cases x <;> simp_all [isCall, isSleep, isFailedEv, isCompletedEv, isResolve, isReject]

/-- In every run of the retry loop the completion channel is settled
exactly once: the number of `resolve` calls plus the number of `reject`
calls is one. -/
theorem execGo_settled_once {R : Type} (cfg : QueueConfig) (prom : Nat → PromiseB R) :
    ∀ (remaining attempt : Nat) (e : Option String),
      ((execGo cfg prom remaining attempt e).1.countP isResolve) +
        ((execGo cfg prom remaining attempt e).1.countP isReject) = 1 := by
  intro remaining
  induction remaining with
  | zero =>
    intro attempt e
    simp [execGo, isResolve, isReject, List.countP_cons]
  | succ remaining ih =>
    intro attempt e
    rw [execGo]
    cases hw : withTimeout (prom attempt) cfg.jobTimeout with
    | ok r => simp [isResolve, isReject, List.countP_cons]
    | error m =>
      have h := ih (attempt + 1) (some m)
      by_cases hlt : attempt < cfg.retryAttempts <;>
        simp [hlt, isResolve, isReject, List.countP_cons, List.countP_append] <;>
        omega

/-- Claim C2: for every job the execution wrapper runs, whatever the
per-attempt behaviour of its processor, the completion channel is settled
exactly once — exactly one `resolve` or `reject` call occurs in the whole
run (a successful attempt resolves and returns, and only the exhaustion of
the retry budget rejects). -/
theorem C2_settled_exactly_once {R : Type} (cfg : QueueConfig)
    (prom : Nat → PromiseB R) :
    ((executeJob cfg prom).1.countP isResolve) +
      ((executeJob cfg prom).1.countP isReject) = 1 :=
  execGo_settled_once cfg prom cfg.retryAttempts 1 none

/-- Closed form of a run in which every attempt in the window fails: the
trace is processor calls and back-off sleeps followed by the terminal
failure block (leave the Active Set, emit `jobFailed`, reject with the last
error, re-trigger dispatch), the processor is invoked on exactly the
attempts of the window in order, and the final record is `failed` with the
last message recorded. -/
theorem execGo_all_fail {R : Type} (cfg : QueueConfig) (prom : Nat → PromiseB R)
    (msgs : Nat → String) :
    ∀ (remaining attempt : Nat) (e : Option String),
      remaining + attempt = cfg.retryAttempts + 1 →
      1 ≤ attempt → attempt ≤ cfg.retryAttempts →
      (∀ a, attempt ≤ a → a ≤ cfg.retryAttempts →
        withTimeout (prom a) cfg.jobTimeout = Except.error (msgs a)) →
      ∃ pre : List (JobAction R),
        (execGo cfg prom remaining attempt e).1 =
          pre ++ [JobAction.removeActive,
                  JobAction.emitFailed
                    (msgOr (some (msgs cfg.retryAttempts)) genericErrorField),
                  JobAction.rejectJob (msgs cfg.retryAttempts),
                  JobAction.trigger] ∧
        (∀ x ∈ pre, isCall x = true ∨ isSleep x = true) ∧
        callsOf pre = List.range' attempt remaining ∧
        (execGo cfg prom remaining attempt e).2 =
          ⟨QueueJobStatus.failed, none,
           some (msgOr (some (msgs cfg.retryAttempts)) genericErrorField), true⟩ := by
  intro remaining
  induction remaining with
  | zero => intro attempt e h0 h1 h2 hf; omega
  | succ remaining ih =>
    intro attempt e h0 h1 h2 hf
    have hw := hf attempt le_rfl h2
    have hstep : execGo cfg prom (remaining + 1) attempt e =
        (JobAction.callProcessor attempt ::
          ((if attempt < cfg.retryAttempts then
              [JobAction.sleepFor (backoffDelay cfg (msgs attempt) attempt)]
            else []) ++
            (execGo cfg prom remaining (attempt + 1) (some (msgs attempt))).1),
         (execGo cfg prom remaining (attempt + 1) (some (msgs attempt))).2) := by
      rw [execGo, hw]
    cases remaining with
    | zero =>
      have ha : attempt = cfg.retryAttempts := by omega
      have hnlt : ¬ attempt < cfg.retryAttempts := by omega
      refine ⟨[JobAction.callProcessor attempt], ?_, ?_, ?_, ?_⟩
      · rw [hstep]
        simp [hnlt, execGo, rejectMsgOf, ha]
      · intro x hx
        simp only [List.mem_singleton] at hx
        subst hx
        exact Or.inl rfl
      · simp [callsOf, List.range', ha]
      · rw [hstep]
        simp [execGo, ha]
    | succ r =>
      have hlt : attempt < cfg.retryAttempts := by omega
      obtain ⟨pre, htr, hmem, hcalls, hfin⟩ :=
        ih (attempt + 1) (some (msgs attempt)) (by omega) (by omega) (by omega)
          (fun a ha1 ha2 => hf a (by omega) ha2)
      refine ⟨JobAction.callProcessor attempt ::
        JobAction.sleepFor (backoffDelay cfg (msgs attempt) attempt) :: pre,
        ?_, ?_, ?_, ?_⟩
      · rw [hstep]
        simp [hlt, htr]
      · intro x hx
        simp only [List.mem_cons] at hx
        rcases hx with hx | hx | hx
        · subst hx; exact Or.inl rfl
        · subst hx; exact Or.inr rfl
        · exact hmem x hx
      · simp [callsOf] at hcalls ⊢
        rw [hcalls]
        simp [List.range']
      · rw [hstep]
        exact hfin

/-- Claim C6: a job whose processor (raced against the timeout) fails on
every attempt is invoked with attempt numbers 1 up to `retryAttempts` and
no further; the job ends `failed` with `completedAt` set and the last
failure's message recorded as `error` (the generic message stands in when
the captured message is empty, mirroring `lastError?.message || …`); the
completion channel is rejected with the last error; the job leaves the
Active Set; exactly one `jobFailed` and no `jobCompleted` event is
emitted; and the dispatch loop is re-triggered. -/
theorem C6_exhausted_retries {R : Type} (cfg : QueueConfig)
    (prom : Nat → PromiseB R) (msgs : Nat → String)
    (hn : 1 ≤ cfg.retryAttempts)
    (hf : ∀ a, 1 ≤ a → a ≤ cfg.retryAttempts →
      withTimeout (prom a) cfg.jobTimeout = Except.error (msgs a)) :
    callsOf (executeJob cfg prom).1 = List.range' 1 cfg.retryAttempts ∧
    (executeJob cfg prom).2 =
      ⟨QueueJobStatus.failed, none,
       some (msgOr (some (msgs cfg.retryAttempts)) genericErrorField), true⟩ ∧
    (executeJob cfg prom).1.countP isFailedEv = 1 ∧
    (executeJob cfg prom).1.countP isCompletedEv = 0 ∧
    (executeJob cfg prom).1.countP isReject = 1 ∧
    JobAction.rejectJob (msgs cfg.retryAttempts) ∈ (executeJob cfg prom).1 ∧
    JobAction.removeActive ∈ (executeJob cfg prom).1 ∧
    JobAction.trigger ∈ (executeJob cfg prom).1 := by
  obtain ⟨pre, htr, hmem, hcalls, hfin⟩ :=
    execGo_all_fail cfg prom msgs cfg.retryAttempts 1 none (by omega) le_rfl hn hf
  have hpre0 : ∀ (p : JobAction R → Bool),
      (∀ x, (isCall x = true ∨ isSleep x = true) → p x = false) →
      pre.countP p = 0 := by
    intro p hp
    exact List.countP_eq_zero.mpr (fun x hx => by simp [hp x (hmem x hx)])
  unfold executeJob
  rw [htr]
  refine ⟨?_, hfin, ?_, ?_, ?_, ?_, ?_, ?_⟩
  · simp only [callsOf, List.filterMap_append] at hcalls ⊢
    rw [hcalls]
    simp
  · rw [List.countP_append,
      hpre0 isFailedEv (fun x hx => (callOrSleep_not_terminal hx).1)]
    simp [List.countP_cons, isFailedEv]
  · rw [List.countP_append,
      hpre0 isCompletedEv (fun x hx => (callOrSleep_not_terminal hx).2.1)]
    simp [List.countP_cons, isCompletedEv]
  · rw [List.countP_append,
      hpre0 isReject (fun x hx => (callOrSleep_not_terminal hx).2.2.2.1)]
    simp [List.countP_cons, isReject]
  · simp
  · simp
  · simp

/-- Witness for C6: with the default configuration (three attempts) and a
processor that always throws `"boom"` immediately, the run calls attempts
1, 2, 3, ends `failed` recording `"boom"`, rejects once with `"boom"` and
emits exactly one `jobFailed` event. -/
theorem C6_exhausted_retries_witness :
    callsOf (executeJob DEFAULT_CONFIG
        (fun _ => (PromiseB.settles 0 (Except.error "boom") : PromiseB Nat))).1 =
      List.range' 1 DEFAULT_CONFIG.retryAttempts ∧
    (executeJob DEFAULT_CONFIG
        (fun _ => (PromiseB.settles 0 (Except.error "boom") : PromiseB Nat))).2 =
      ⟨QueueJobStatus.failed, none, some (msgOr (some "boom") genericErrorField), true⟩ ∧
    (executeJob DEFAULT_CONFIG
        (fun _ => (PromiseB.settles 0 (Except.error "boom") : PromiseB Nat))).1.countP
      isFailedEv = 1 ∧
    (executeJob DEFAULT_CONFIG
        (fun _ => (PromiseB.settles 0 (Except.error "boom") : PromiseB Nat))).1.countP
      isCompletedEv = 0 ∧
    (executeJob DEFAULT_CONFIG
        (fun _ => (PromiseB.settles 0 (Except.error "boom") : PromiseB Nat))).1.countP
      isReject = 1 ∧
    JobAction.rejectJob "boom" ∈ (executeJob DEFAULT_CONFIG
        (fun _ => (PromiseB.settles 0 (Except.error "boom") : PromiseB Nat))).1 ∧
    JobAction.removeActive ∈ (executeJob DEFAULT_CONFIG
        (fun _ => (PromiseB.settles 0 (Except.error "boom") : PromiseB Nat))).1 ∧
    JobAction.trigger ∈ (executeJob DEFAULT_CONFIG
        (fun _ => (PromiseB.settles 0 (Except.error "boom") : PromiseB Nat))).1 :=
  C6_exhausted_retries DEFAULT_CONFIG _ (fun _ => "boom") (by decide)
    (fun a h1 h2 => rfl)

/-- Closed form of a run whose attempts before `k` fail and whose attempt
`k` succeeds (within the retry window): the trace is the calls and sleeps
of attempts below `k` — one sleep per failed attempt — followed by the
terminal success block (call `k`, leave the Active Set, emit
`jobCompleted`, resolve with the result, re-trigger dispatch), and the
final record is `completed` with the result stored. -/
theorem execGo_success_at {R : Type} (cfg : QueueConfig) (prom : Nat → PromiseB R)
    (msgs : Nat → String) (k : Nat) (r : R)
    (hk : k ≤ cfg.retryAttempts)
    (hok : withTimeout (prom k) cfg.jobTimeout = Except.ok r) :
    ∀ (remaining attempt : Nat) (e : Option String),
      remaining + attempt = cfg.retryAttempts + 1 →
      1 ≤ attempt → attempt ≤ k →
      (∀ a, attempt ≤ a → a < k →
        withTimeout (prom a) cfg.jobTimeout = Except.error (msgs a)) →
      ∃ pre : List (JobAction R),
        (execGo cfg prom remaining attempt e).1 =
          pre ++ [JobAction.callProcessor k, JobAction.removeActive,
                  JobAction.emitCompleted, JobAction.resolveJob r,
                  JobAction.trigger] ∧
        (∀ x ∈ pre, isCall x = true ∨ isSleep x = true) ∧
        pre.countP isSleep = k - attempt ∧
        callsOf pre = List.range' attempt (k - attempt) ∧
        (execGo cfg prom remaining attempt e).2 =
          ⟨QueueJobStatus.completed, some r, none, true⟩ := by
  intro remaining
  induction remaining with
  | zero => intro attempt e h0 h1 h2 hf; omega
  | succ remaining ih =>
    intro attempt e h0 h1 h2 hf
    by_cases hak : attempt = k
    · subst hak
      refine ⟨[], ?_, ?_, ?_, ?_, ?_⟩
      · rw [execGo, hok]
        simp
      · intro x hx; simp at hx
      · simp
      · simp [callsOf, List.range']
      · rw [execGo, hok]
    · have haltk : attempt < k := by omega
      have hw := hf attempt le_rfl haltk
      have hlt : attempt < cfg.retryAttempts := by omega
      have hstep : execGo cfg prom (remaining + 1) attempt e =
          (JobAction.callProcessor attempt ::
            ((if attempt < cfg.retryAttempts then
                [JobAction.sleepFor (backoffDelay cfg (msgs attempt) attempt)]
              else []) ++
              (execGo cfg prom remaining (attempt + 1) (some (msgs attempt))).1),
           (execGo cfg prom remaining (attempt + 1) (some (msgs attempt))).2) := by
        rw [execGo, hw]
      obtain ⟨pre, htr, hmem, hsleep, hcalls, hfin⟩ :=
        ih (attempt + 1) (some (msgs attempt)) (by omega) (by omega) (by omega)
          (fun a ha1 ha2 => hf a (by omega) ha2)
      refine ⟨JobAction.callProcessor attempt ::
        JobAction.sleepFor (backoffDelay cfg (msgs attempt) attempt) :: pre,
        ?_, ?_, ?_, ?_, ?_⟩
      · rw [hstep]
        simp [hlt, htr]
      · intro x hx
        simp only [List.mem_cons] at hx
        rcases hx with hx | hx | hx
        · subst hx; exact Or.inl rfl
        · subst hx; exact Or.inr rfl
        · exact hmem x hx
      · simp only [List.countP_cons, hsleep, isSleep, isCall]
        simp [isSleep]
        omega
      · have hkeq : k - attempt = (k - (attempt + 1)) + 1 := by omega
        simp [callsOf] at hcalls ⊢
        rw [hcalls, hkeq, List.range']
      · rw [hstep]
        exact hfin

/-- Claim C7: a job whose processor fails on attempts `1..k-1` and
succeeds on attempt `k ≤ retryAttempts` completes successfully with
exactly `k-1` back-off sleeps (one per failed non-final attempt, none
after the success); the result is stored and the record ends `completed`;
the completion channel is resolved exactly once with the result; exactly
one `jobCompleted` and no `jobFailed` event is emitted. -/
theorem C7_success_after_retries {R : Type} (cfg : QueueConfig)
    (prom : Nat → PromiseB R) (msgs : Nat → String) (k : Nat) (r : R)
    (h1 : 1 ≤ k) (hk : k ≤ cfg.retryAttempts)
    (hfail : ∀ a, 1 ≤ a → a < k →
      withTimeout (prom a) cfg.jobTimeout = Except.error (msgs a))
    (hok : withTimeout (prom k) cfg.jobTimeout = Except.ok r) :
    (executeJob cfg prom).1.countP isSleep = k - 1 ∧
    (executeJob cfg prom).2 = ⟨QueueJobStatus.completed, some r, none, true⟩ ∧
    (executeJob cfg prom).1.countP isResolve = 1 ∧
    JobAction.resolveJob r ∈ (executeJob cfg prom).1 ∧
    (executeJob cfg prom).1.countP isCompletedEv = 1 ∧
    (executeJob cfg prom).1.countP isFailedEv = 0 := by
  obtain ⟨pre, htr, hmem, hsleep, hcalls, hfin⟩ :=
    execGo_success_at cfg prom msgs k r hk hok cfg.retryAttempts 1 none
      (by omega) le_rfl h1 hfail
  have hpre0 : ∀ (p : JobAction R → Bool),
      (∀ x, (isCall x = true ∨ isSleep x = true) → p x = false) →
      pre.countP p = 0 := by
    intro p hp
    exact List.countP_eq_zero.mpr (fun x hx => by simp [hp x (hmem x hx)])
  unfold executeJob
  rw [htr]
  refine ⟨?_, hfin, ?_, ?_, ?_, ?_⟩
  · rw [List.countP_append, hsleep]
    simp [List.countP_cons, isSleep]
  · rw [List.countP_append,
      hpre0 isResolve (fun x hx => (callOrSleep_not_terminal hx).2.2.1)]
    simp [List.countP_cons, isResolve]
  · simp
  · rw [List.countP_append,
      hpre0 isCompletedEv (fun x hx => (callOrSleep_not_terminal hx).2.1)]
    simp [List.countP_cons, isCompletedEv]
  · rw [List.countP_append,
      hpre0 isFailedEv (fun x hx => (callOrSleep_not_terminal hx).1)]
    simp [List.countP_cons, isFailedEv]

/-- Witness for C7: default configuration, a processor that throws
`"boom"` on attempt 1 and returns `42` on attempt 2 — one back-off sleep,
result `42`, one resolve, one `jobCompleted`, no `jobFailed`. -/
theorem C7_success_after_retries_witness :
    (executeJob DEFAULT_CONFIG
        (fun a => if a = 1 then (PromiseB.settles 0 (Except.error "boom") : PromiseB Nat)
          else PromiseB.settles 0 (Except.ok 42))).1.countP isSleep = 2 - 1 ∧
    (executeJob DEFAULT_CONFIG
        (fun a => if a = 1 then (PromiseB.settles 0 (Except.error "boom") : PromiseB Nat)
          else PromiseB.settles 0 (Except.ok 42))).2 =
      ⟨QueueJobStatus.completed, some 42, none, true⟩ ∧
    (executeJob DEFAULT_CONFIG
        (fun a => if a = 1 then (PromiseB.settles 0 (Except.error "boom") : PromiseB Nat)
          else PromiseB.settles 0 (Except.ok 42))).1.countP isResolve = 1 ∧
    JobAction.resolveJob 42 ∈ (executeJob DEFAULT_CONFIG
        (fun a => if a = 1 then (PromiseB.settles 0 (Except.error "boom") : PromiseB Nat)
          else PromiseB.settles 0 (Except.ok 42))).1 ∧
    (executeJob DEFAULT_CONFIG
        (fun a => if a = 1 then (PromiseB.settles 0 (Except.error "boom") : PromiseB Nat)
          else PromiseB.settles 0 (Except.ok 42))).1.countP isCompletedEv = 1 ∧
    (executeJob DEFAULT_CONFIG
        (fun a => if a = 1 then (PromiseB.settles 0 (Except.error "boom") : PromiseB Nat)
          else PromiseB.settles 0 (Except.ok 42))).1.countP isFailedEv = 0 :=
  C7_success_after_retries DEFAULT_CONFIG _ (fun _ => "boom") 2 42
    (by decide) (by decide)
    (fun a ha1 ha2 => by
      have ha : a = 1 := by omega
      subst ha
      rfl)
    rfl

/-- Claim C8: whenever an attempt fails (with message `m`) and a retry
follows (the attempt is not the last of the budget), the back-off sleep
placed before the retry is `retryDelay * attempt * 2` when `m` contains
`"429"`, `"rate"` or `"limit"` as a substring, and `retryDelay * attempt`
otherwise, where `attempt` is the 1-based number of the attempt that just
failed. -/
theorem C8_backoff_delay {R : Type} (cfg : QueueConfig) (prom : Nat → PromiseB R)
    (m : String) (remaining attempt : Nat) (e : Option String)
    (h0 : remaining + attempt = cfg.retryAttempts + 1)
    (h1 : 1 ≤ attempt) (h2 : attempt < cfg.retryAttempts)
    (hm : withTimeout (prom attempt) cfg.jobTimeout = Except.error m) :
    ∃ rest, (execGo cfg prom remaining attempt e).1 =
      JobAction.callProcessor attempt ::
      JobAction.sleepFor
        (if strIncludes m "429" || strIncludes m "rate" || strIncludes m "limit"
         then cfg.retryDelay * attempt * 2
         else cfg.retryDelay * attempt) :: rest := by
  obtain ⟨r, hr⟩ : ∃ r, remaining = r + 1 := ⟨remaining - 1, by omega⟩
  subst hr
  rw [execGo, hm]
  refine ⟨(execGo cfg prom r (attempt + 1) (some m)).1, ?_⟩
  simp [h2, backoffDelay, isRateLimited]

/-- Witness for C8: attempt 1 under the default configuration fails with
`"rate limited"` — the sleep before attempt 2 is the doubled delay. -/
theorem C8_backoff_delay_witness :
    ∃ rest, (execGo DEFAULT_CONFIG
        (fun _ => (PromiseB.settles 0 (Except.error "rate limited") : PromiseB Nat))
        3 1 none).1 =
      JobAction.callProcessor 1 ::
      JobAction.sleepFor
        (if strIncludes "rate limited" "429" || strIncludes "rate limited" "rate" ||
            strIncludes "rate limited" "limit"
         then DEFAULT_CONFIG.retryDelay * 1 * 2
         else DEFAULT_CONFIG.retryDelay * 1) :: rest :=
  C8_backoff_delay DEFAULT_CONFIG _ "rate limited" 3 1 none (by decide) (by decide)
    (by decide) rfl

/-- Any step of the retry loop begins by invoking the processor on the
current attempt. -/
theorem execGo_head_call {R : Type} (cfg : QueueConfig) (prom : Nat → PromiseB R)
    (remaining attempt : Nat) (e : Option String) :
    ∃ tail, (execGo cfg prom (remaining + 1) attempt e).1 =
      JobAction.callProcessor attempt :: tail := by
  rw [execGo]
  cases withTimeout (prom attempt) cfg.jobTimeout with
  | ok r => exact ⟨_, rfl⟩
  | error m => exact ⟨_, rfl⟩

/-- The retry loop only observes the processor through the race against
the timeout: two processors whose raced outcomes agree on every attempt
produce identical runs. -/
theorem execGo_congr {R : Type} (cfg : QueueConfig) (prom prom' : Nat → PromiseB R)
    (h : ∀ a, withTimeout (prom a) cfg.jobTimeout =
      withTimeout (prom' a) cfg.jobTimeout) :
    ∀ (remaining attempt : Nat) (e : Option String),
      execGo cfg prom remaining attempt e = execGo cfg prom' remaining attempt e := by
  intro remaining
  induction remaining with
  | zero => intro attempt e; rfl
  | succ remaining ih =>
    intro attempt e
    rw [execGo, execGo, h attempt]
    cases withTimeout (prom' attempt) cfg.jobTimeout with
    | ok r => rfl
    | error m => simp only [ih]

/-- The timeout error message is not classified as rate limited. -/
theorem timeoutMsg_not_rate_limited : isRateLimited timeoutMsg = false := by decide

/-- Claim C9: every attempt races the processor call against a timer set
to `jobTimeout`.  (1) If the promise settles only when the timer has
already fired, the attempt's outcome is the timeout error — independently
of what the underlying call eventually produced, which is discarded;
(2) a promise that never settles yields the timeout error; (3) the loop
observes nothing of the processor beyond the raced outcome, so the
discarded outcome cannot influence the run; (4) a timed-out non-final
attempt consumes exactly one attempt and is retried: the trace shows the
call, the (linear — the timeout message carries no rate-limit marker)
back-off sleep, and then the call of attempt `attempt + 1`. -/
theorem C9_timeout_race {R : Type} :
    (∀ (t ms : Nat) (o : Except String R), ms ≤ t →
      withTimeout (PromiseB.settles t o) ms = Except.error timeoutMsg) ∧
    (∀ ms : Nat, withTimeout (PromiseB.never : PromiseB R) ms =
      Except.error timeoutMsg) ∧
    (∀ (cfg : QueueConfig) (prom prom' : Nat → PromiseB R),
      (∀ a, withTimeout (prom a) cfg.jobTimeout =
        withTimeout (prom' a) cfg.jobTimeout) →
      executeJob cfg prom = executeJob cfg prom') ∧
    (∀ (cfg : QueueConfig) (prom : Nat → PromiseB R) (remaining attempt : Nat)
        (e : Option String),
      remaining + attempt = cfg.retryAttempts + 1 →
      1 ≤ attempt → attempt < cfg.retryAttempts →
      prom attempt = PromiseB.never →
      ∃ rest, (execGo cfg prom remaining attempt e).1 =
        JobAction.callProcessor attempt ::
        JobAction.sleepFor (cfg.retryDelay * attempt) ::
        JobAction.callProcessor (attempt + 1) :: rest) := by
  refine ⟨?_, ?_, ?_, ?_⟩
  · intro t ms o hle
    have : ¬ t < ms := by omega
    simp [withTimeout, this]
  · intro ms
    rfl
  · intro cfg prom prom' h
    exact execGo_congr cfg prom prom' h cfg.retryAttempts 1 none
  · intro cfg prom remaining attempt e h0 h1 h2 hnever
    obtain ⟨r, hr⟩ : ∃ r, remaining = r + 1 ∧ 1 ≤ r := by
      refine ⟨remaining - 1, by omega, by omega⟩
    obtain ⟨hr1, hr2⟩ := hr
    subst hr1
    obtain ⟨r', hr'⟩ : ∃ r', r = r' + 1 := ⟨r - 1, by omega⟩
    subst hr'
    have hw : withTimeout (prom attempt) cfg.jobTimeout =
        Except.error timeoutMsg := by rw [hnever]; rfl
    obtain ⟨tail, htail⟩ :=
      execGo_head_call cfg prom r' (attempt + 1) (some timeoutMsg)
    rw [execGo, hw]
    refine ⟨tail, ?_⟩
    simp [h2, htail, backoffDelay, timeoutMsg_not_rate_limited]

/-- Witness for C9: a promise settling exactly at the 5-minute default
timeout is beaten by the timer; a never-settling processor times out on
attempt 1, sleeps the linear delay `2000 * 1`, and attempt 2 is consumed
next. -/
theorem C9_timeout_race_witness :
    withTimeout (PromiseB.settles 300000 (Except.ok (0 : Nat))) 300000 =
      Except.error timeoutMsg ∧
    withTimeout (PromiseB.never : PromiseB Nat) 300000 = Except.error timeoutMsg ∧
    ∃ rest, (execGo DEFAULT_CONFIG (fun _ => (PromiseB.never : PromiseB Nat))
        3 1 none).1 =
      JobAction.callProcessor 1 ::
      JobAction.sleepFor (DEFAULT_CONFIG.retryDelay * 1) ::
      JobAction.callProcessor 2 :: rest :=
  ⟨(C9_timeout_race (R := Nat)).1 300000 300000 (Except.ok 0) le_rfl,
   (C9_timeout_race (R := Nat)).2.1 300000,
   (C9_timeout_race (R := Nat)).2.2.2 DEFAULT_CONFIG _ 3 1 none (by decide)
     (by decide) (by decide) rfl⟩

/-- Claim C10: the rate-limit classification is a case-sensitive substring
match.  The capitalised message `"Rate Limit exceeded"` (which does not
contain `"429"`) is classified as not rate limited and gets the linear
back-off, while its lowercase variant `"rate limit exceeded"` is
classified as rate limited and gets the doubled back-off; and any message
containing `"limit"` as a substring — also inside an unrelated word — is
classified as rate limited. -/
theorem C10_case_sensitive_match (cfg : QueueConfig) (a : Nat) :
    isRateLimited "Rate Limit exceeded" = false ∧
    isRateLimited "rate limit exceeded" = true ∧
    backoffDelay cfg "Rate Limit exceeded" a = cfg.retryDelay * a ∧
    backoffDelay cfg "rate limit exceeded" a = cfg.retryDelay * a * 2 ∧
    (∀ m : String, strIncludes m "limit" = true → isRateLimited m = true) := by
  refine ⟨by decide, by decide, ?_, ?_, ?_⟩
  · simp [backoffDelay, show isRateLimited "Rate Limit exceeded" = false by decide]
  · simp [backoffDelay, show isRateLimited "rate limit exceeded" = true by decide]
  · intro m hm
    simp [isRateLimited, hm]

/-- Witness for C10 on the word `"unlimited"`, which contains `"limit"`
only inside an unrelated word but is classified as rate limited. -/
theorem C10_case_sensitive_match_witness :
    strIncludes "unlimited" "limit" = true ∧
    isRateLimited "unlimited" = true :=
  ⟨by decide,
   (C10_case_sensitive_match DEFAULT_CONFIG 1).2.2.2.2 "unlimited" (by decide)⟩
